import Mathlib

/-!
Shallow embedding of the gansner graph-layout library (src/lib.rs,
src/layout.rs, src/rank_set.rs).

Nodes are arena indices (Nat), mirroring petgraph NodeIndex.  The edge
store mirrors petgraph Graph edge storage: a vector of edges where
add_edge appends at the end and remove_edge swap-removes (the edge at
the last index adopts the removed index).  The rank-hint registry
mirrors rank_set.rs: a HashMap from node to rank index, embedded as an
association list with insert-or-replace semantics.  Calls that panic in
the Rust source (failed asserts, unwrap on a missing edge) are embedded
as Option-returning functions yielding none.
-/

/-- RankIdx is usize in the source (rank_set.rs line 145). -/
abbrev RankIdx := Nat

/-- usize MAX on a 64-bit target. -/
def USIZE_MAX : Nat := 2 ^ 64 - 1

/-- rank_set.rs line 14: MIN_RANK = 0. -/
def MIN_RANK : RankIdx := 0

/-- rank_set.rs line 15: MAX_RANK = RankIdx MAX. -/
def MAX_RANK : RankIdx := USIZE_MAX

/-- Association-list embedding of HashMap insert: replace the binding if
the key is present, otherwise append a new binding. -/
def insertA : List (Nat × RankIdx) → Nat → RankIdx → List (Nat × RankIdx)
  | [], n, v => [(n, v)]
  | (k, w) :: t, n, v => if k = n then (n, v) :: t else (k, w) :: insertA t n v

/-- Association-list embedding of HashMap get. -/
def lookupA : List (Nat × RankIdx) → Nat → Option RankIdx
  | [], _ => none
  | (k, w) :: t, n => if k = n then some w else lookupA t n

/-- rank_set.rs RankSets: ranks map plus the next fresh rank index. -/
structure RankSets where
  ranks : List (Nat × RankIdx)
  next_rank_idx : RankIdx
deriving DecidableEq

/-- rank_set.rs RankSets new. -/
def RankSets.new : RankSets := ⟨[], 1⟩

/-- rank_set.rs node_rank (lines 117-119). -/
def RankSets.node_rank (s : RankSets) (n : Nat) : Option RankIdx :=
  lookupA s.ranks n

/-- rank_set.rs set_rank_max (lines 24-30); the assert that the node has
no rank hint yet becomes none. -/
def RankSets.set_rank_max (s : RankSets) (n : Nat) : Option RankSets :=
  if (s.node_rank n).isSome then none
  else some { s with ranks := insertA s.ranks n MAX_RANK }

/-- rank_set.rs set_rank_min (lines 33-39). -/
def RankSets.set_rank_min (s : RankSets) (n : Nat) : Option RankSets :=
  if (s.node_rank n).isSome then none
  else some { s with ranks := insertA s.ranks n MIN_RANK }

/-- rank_set.rs merge_ranks (lines 121-127): every binding whose value is
the absorbed rank is rewritten to the absorbing rank. -/
def RankSets.merge_ranks (s : RankSets) (f t : RankIdx) : RankSets :=
  { s with ranks := s.ranks.map fun p => (p.1, if p.2 = f then t else p.2) }

/-- rank_set.rs add_rank (lines 129-131). -/
def RankSets.add_rank (s : RankSets) (n : Nat) (r : RankIdx) : RankSets :=
  { s with ranks := insertA s.ranks n r }

/-- rank_set.rs new_rank (lines 133-142); the overflow assert becomes
none. -/
def RankSets.new_rank (s : RankSets) : Option (RankIdx × RankSets) :=
  if s.next_rank_idx = MAX_RANK then none
  else some (s.next_rank_idx, { s with next_rank_idx := s.next_rank_idx + 1 })

/-- rank_set.rs set_rank (lines 49-79): unify the groups of two nodes; a
MIN and MAX merge panics (none). -/
def RankSets.set_rank (s : RankSets) (a b : Nat) : Option RankSets :=
  match s.node_rank a, s.node_rank b with
  | some ra, some rb =>
    let p := if ra > rb then (rb, ra) else (ra, rb)
    if p.1 = MIN_RANK ∧ p.2 = MAX_RANK then none
    else if p.1 = MIN_RANK then some (s.merge_ranks p.2 p.1)
    else if p.2 = MAX_RANK then some (s.merge_ranks p.1 p.2)
    else some (s.merge_ranks p.1 p.2)
  | some r, none => some (s.add_rank b r)
  | none, some r => some (s.add_rank a r)
  | none, none =>
    (s.new_rank).map fun q => (q.2.add_rank a q.1).add_rank b q.1

/-- rank_set.rs rank_min (lines 82-90): all nodes bound to MIN_RANK, in
map-iteration order (embedded as binding order). -/
def RankSets.rank_min (s : RankSets) : List Nat :=
  s.ranks.filterMap fun p => if p.2 = MIN_RANK then some p.1 else none

/-- rank_set.rs rank_max (lines 93-101). -/
def RankSets.rank_max (s : RankSets) : List Nat :=
  s.ranks.filterMap fun p => if p.2 = MAX_RANK then some p.1 else none

/-- lib.rs Edge (lines 165-173): the petgraph edge weight of the
library; min_rank_len is RankIdx, weight is f64 (embedded as Rat, the
library only compares it against 0 and stores it). -/
structure Edge where
  min_rank_len : RankIdx
  weight : Rat
deriving DecidableEq

/-- lib.rs Edge new (lines 176-182): defaults min_rank_len 1, weight 1. -/
def Edge.new : Edge := ⟨1, 1⟩

/-- lib.rs with_min_rank_len / set_min_rank_len (lines 184-191). -/
def Edge.with_min_rank_len (e : Edge) (m : RankIdx) : Edge :=
  { e with min_rank_len := m }

/-- lib.rs set_weight (lines 198-201): asserts weight is at least 0,
otherwise panics (none). -/
def Edge.set_weight (e : Edge) (w : Rat) : Option Edge :=
  if w ≥ 0 then some { e with weight := w } else none

/-- lib.rs with_weight (lines 193-196). -/
def Edge.with_weight (e : Edge) (w : Rat) : Option Edge :=
  e.set_weight w

/-- One slot of the petgraph edge vector: endpoints plus the library
edge weight. -/
structure GraphEdge where
  source : Nat
  target : Nat
  weight : Edge
deriving DecidableEq

/-- lib.rs NodeWeight (lines 145-153): user payload, bounding-box size
and the computed position (kurbo Size and Point, embedded as Rat pairs). -/
structure NodeWeight (α : Type) where
  ix : α
  size : Rat × Rat
  position : Rat × Rat
deriving DecidableEq

/-- lib.rs NodeWeight new (lines 155-162): position starts at Point ZERO. -/
def NodeWeight.new {α : Type} (ix : α) (size : Rat × Rat) : NodeWeight α :=
  ⟨ix, size, (0, 0)⟩

/-- lib.rs Gansner (lines 30-37): petgraph graph (node vector plus edge
vector), rank hints, fresh flag. -/
structure Gansner (α : Type) where
  nodes : List (NodeWeight α)
  edges : List GraphEdge
  rank_hints : RankSets
  fresh : Bool
deriving DecidableEq

/-- lib.rs new / from_graph (lines 40-54): empty graph, fresh false. -/
def Gansner.new {α : Type} : Gansner α :=
  ⟨[], [], RankSets.new, false⟩

/-- lib.rs add_node (lines 60-63): clears fresh, appends the node and
returns its index. -/
def Gansner.add_node {α : Type} (g : Gansner α) (ix : α) (size : Rat × Rat) :
    Gansner α × Nat :=
  ({ g with nodes := g.nodes ++ [NodeWeight.new ix size], fresh := false },
    g.nodes.length)

/-- lib.rs add_edge (lines 65-68): clears fresh, appends a default edge;
petgraph add_edge appends at the end of the edge vector. -/
def Gansner.add_edge {α : Type} (g : Gansner α) (a b : Nat) : Gansner α :=
  { g with edges := g.edges ++ [⟨a, b, Edge.new⟩], fresh := false }

/-- lib.rs add_edge_with_options (lines 72-87): the edge value is built
(with_weight can panic on a negative weight, yielding none) before it is
inserted. -/
def Gansner.add_edge_with_options {α : Type} (g : Gansner α) (a b : Nat)
    (min_rank_len : RankIdx) (w : Rat) : Option (Gansner α) :=
  ((Edge.new.with_min_rank_len min_rank_len).with_weight w).map fun e =>
    { g with edges := g.edges ++ [⟨a, b, e⟩], fresh := false }

/-- lib.rs set_rank_max (lines 90-93). -/
def Gansner.set_rank_max {α : Type} (g : Gansner α) (n : Nat) :
    Option (Gansner α) :=
  (g.rank_hints.set_rank_max n).map fun h =>
    { g with rank_hints := h, fresh := false }

/-- lib.rs set_rank_min (lines 96-99). -/
def Gansner.set_rank_min {α : Type} (g : Gansner α) (n : Nat) :
    Option (Gansner α) :=
  (g.rank_hints.set_rank_min n).map fun h =>
    { g with rank_hints := h, fresh := false }

/-- lib.rs set_rank_same (lines 102-105). -/
def Gansner.set_rank_same {α : Type} (g : Gansner α) (a b : Nat) :
    Option (Gansner α) :=
  (g.rank_hints.set_rank a b).map fun h =>
    { g with rank_hints := h, fresh := false }

/-- petgraph Graph remove_edge on the edge vector: swap-remove, so the
edge at the last index adopts the removed index; none when the index is
absent (the unwrap in the source then panics). -/
def swap_remove (es : List GraphEdge) (i : Nat) :
    Option (GraphEdge × List GraphEdge) :=
  match es.get? i, es.get? (es.length - 1) with
  | some e, some last => some (e, (es.set i last).dropLast)
  | _, _ => none

/-- lib.rs reverse_edge (lines 126-130): read the endpoints, remove the
edge, re-add it with swapped endpoints; petgraph add_edge places the new
edge at the last index, which is returned. -/
def Gansner.reverse_edge {α : Type} (g : Gansner α) (i : Nat) :
    Option (Gansner α × Nat) :=
  match swap_remove g.edges i with
  | none => none
  | some (e, es) =>
    some ({ g with edges := es ++ [⟨e.target, e.source, e.weight⟩] }, es.length)

/-- petgraph edges_directed(n, Incoming) on an unmutated graph: edge
indices with target n, most recently added first. -/
def edges_directed_incoming (es : List GraphEdge) (n : Nat) : List Nat :=
  ((List.range es.length).filter fun i =>
    (es.get? i).map (·.target) == some n).reverse

/-- petgraph edges_directed(n, Outgoing) on an unmutated graph. -/
def edges_directed_outgoing (es : List GraphEdge) (n : Nat) : List Nat :=
  ((List.range es.length).filter fun i =>
    (es.get? i).map (·.source) == some n).reverse

/-- Nodes appearing in the edge list, first occurrence first (the greedy
node sequence is built from edge references only). -/
def nodes_of (es : List GraphEdge) : List Nat :=
  ((es.map fun e => [e.source, e.target]).flatten).dedup

/-- Out-degree of n restricted to the remaining nodes, self-loops
excluded. -/
def out_degree (es : List GraphEdge) (rem : List Nat) (n : Nat) : Nat :=
  (es.filter fun e =>
    e.source == n && e.target != n && rem.contains e.target).length

/-- In-degree of n restricted to the remaining nodes, self-loops
excluded. -/
def in_degree (es : List GraphEdge) (rem : List Nat) (n : Nat) : Nat :=
  (es.filter fun e =>
    e.target == n && e.source != n && rem.contains e.source).length

/-- Degree difference (out minus in) used by the greedy heuristic. -/
def delta (es : List GraphEdge) (rem : List Nat) (n : Nat) : Int :=
  (out_degree es rem n : Int) - (in_degree es rem n : Int)

/-- Remaining node of maximal delta; ties keep the earliest node. -/
def max_delta_node (es : List GraphEdge) (rem : List Nat) : Nat :=
  match rem with
  | [] => 0
  | h :: t => t.foldl (fun best n =>
      if delta es rem n > delta es rem best then n else best) h

/-- Modelled from the spec: the greedy node sequence of
petgraph::algo::greedy_feedback_arc_set (an external dependency whose
source is not part of this repository).  Eades, Lin and Smyth GR
heuristic: repeatedly remove a sink (prepended to the tail sequence),
else a source (appended to the head sequence), else a remaining node of
maximal out-degree minus in-degree (appended to the head sequence); the
result is head sequence followed by tail sequence.  Fuel is the number
of nodes, enough for one removal each. -/
def good_seq_go (es : List GraphEdge) :
    Nat → List Nat → List Nat → List Nat → List Nat
  | 0, _, s1, s2 => s1 ++ s2
  | fuel + 1, rem, s1, s2 =>
    match rem with
    | [] => s1 ++ s2
    | _ :: _ =>
      match rem.find? (fun n => out_degree es rem n == 0) with
      | some n => good_seq_go es fuel (rem.erase n) s1 (n :: s2)
      | none =>
        match rem.find? (fun n => in_degree es rem n == 0) with
        | some n => good_seq_go es fuel (rem.erase n) (s1 ++ [n]) s2
        | none =>
          let n := max_delta_node es rem
          good_seq_go es fuel (rem.erase n) (s1 ++ [n]) s2

/-- Modelled from the spec: the greedy node sequence over the nodes that
occur in the edge list. -/
def good_node_sequence (es : List GraphEdge) : List Nat :=
  good_seq_go es (nodes_of es).length (nodes_of es) [] []

/-- Modelled from the spec: petgraph::algo::greedy_feedback_arc_set
emits, in increasing edge-index order, every edge that is not strictly
forward in the greedy node sequence (self-loops included). -/
def greedy_feedback_arc_set (es : List GraphEdge) : List Nat :=
  let seq := good_node_sequence es
  (List.range es.length).filter fun i =>
    match es.get? i with
    | some e => seq.indexOf e.target ≤ seq.indexOf e.source
    | none => false

/-- layout.rs RemovedEdge (lines 149-153); from is a Lean keyword, hence
the underscores. -/
structure RemovedEdge where
  from_ : Nat
  to_ : Nat
  weight : Edge
deriving DecidableEq

/-- Reverse the listed edge indices in order, collecting the index of
each re-added edge (layout.rs lines 76-79 and 123). -/
def fold_reverse {α : Type} (g : Gansner α) : List Nat →
    Option (Gansner α × List Nat)
  | [] => some (g, [])
  | i :: rest =>
    match g.reverse_edge i with
    | none => none
    | some (g1, k) =>
      (fold_reverse g1 rest).map fun q => (q.1, k :: q.2)

/-- Remove the listed edge indices in order, recording endpoints and
weight; layout.rs lines 110-121 read the source endpoint and store it as
both from and to of the removed (self-loop) edge. -/
def fold_remove {α : Type} (g : Gansner α) : List Nat →
    Option (Gansner α × List RemovedEdge)
  | [] => some (g, [])
  | i :: rest =>
    match swap_remove g.edges i with
    | none => none
    | some (e, es) =>
      (fold_remove { g with edges := es } rest).map fun q =>
        (q.1, ⟨e.source, e.source, e.weight⟩ :: q.2)

/-- layout.rs prepare_rank_assignment (lines 56-131): collect every
incoming edge of each MIN node and every outgoing edge of each MAX node,
reverse them; then run the greedy feedback arc set on the corrected
graph, remove its self-loops and reverse its other edges; return the
graph together with the removal and reversal log. -/
def Gansner.prepare_rank_assignment {α : Type} (g : Gansner α) :
    Option (Gansner α × List RemovedEdge × List Nat) := do
  let reverse_ixs :=
    ((g.rank_hints.rank_min.map fun n =>
        edges_directed_incoming g.edges n).flatten) ++
    ((g.rank_hints.rank_max.map fun n =>
        edges_directed_outgoing g.edges n).flatten)
  let (g1, rev1) ← fold_reverse g reverse_ixs
  let fas := greedy_feedback_arc_set g1.edges
  let remove_ixs := fas.filter fun i =>
    (g1.edges.get? i).map (fun e => e.source == e.target) == some true
  let reverse_ixs2 := fas.filter fun i =>
    (g1.edges.get? i).map (fun e => e.source == e.target) == some false
  let (g2, removed) ← fold_remove g1 remove_ixs
  let (g3, rev2) ← fold_reverse g2 reverse_ixs2
  some (g3, removed, rev1 ++ rev2)

/-- layout.rs undo_modify_edges (lines 134-141): re-add every removed
edge, then reverse every recorded index in log order. -/
def Gansner.undo_modify_edges {α : Type} (g : Gansner α)
    (removed : List RemovedEdge) (rev : List Nat) : Option (Gansner α) := do
  let g1 := removed.foldl (fun g r =>
    { g with edges := g.edges ++ [⟨r.from_, r.to_, r.weight⟩] }) g
  let (g2, _) ← fold_reverse g1 rev
  some g2

/-- layout.rs layout_impl (lines 7-38): normalize, (rank assignment is
unimplemented), undo; the debug assertions of verification builds are
not part of the release semantics. -/
def Gansner.layout_impl {α : Type} (g : Gansner α) : Option (Gansner α) := do
  let (g1, removed, rev) ← g.prepare_rank_assignment
  g1.undo_modify_edges removed rev

/-- lib.rs layout (lines 108-114): no-op when fresh, otherwise run
layout_impl and set fresh; the returned Nat counts layout_impl runs. -/
def Gansner.layout {α : Type} (g : Gansner α) : Option (Gansner α × Nat) :=
  if g.fresh then some (g, 0)
  else (g.layout_impl).map fun g1 => ({ g1 with fresh := true }, 1)

/-- lib.rs iter_nodes (lines 134-141): panics (none) unless fresh,
otherwise yields payload and position per node. -/
def Gansner.iter_nodes {α : Type} (g : Gansner α) :
    Option (List (α × (Rat × Rat))) :=
  if g.fresh then some (g.nodes.map fun n => (n.ix, n.position)) else none

/-!
Claim inputs and theorems.
-/

/-- Graph built through the public API: three nodes 0, 1, 2 and edges
0 to 2 and 1 to 2 (both incoming at node 2). -/
def c1_before : Gansner Nat :=
  let g : Gansner Nat := Gansner.new
  let p := g.add_node 0 (1, 1)
  let q := p.1.add_node 1 (1, 1)
  let r := q.1.add_node 2 (1, 1)
  (r.1.add_edge p.2 r.2).add_edge q.2 r.2

/-- The same graph with node 2 hinted to the MIN group. -/
def c1_input : Option (Gansner Nat) := c1_before.set_rank_min 2

/-- Multiset of (source, target, weight) triples of a graph. -/
def edge_triples {α : Type} (g : Gansner α) : Multiset (Nat × Nat × Rat) :=
  ↑(g.edges.map fun e => (e.source, e.target, e.weight.weight))

/-- Normalize then undo on the C1 input, returning the edge triples
before and after. -/
def c1_run :
    Option (Multiset (Nat × Nat × Rat) × Multiset (Nat × Nat × Rat)) := do
  let g ← c1_input
  let (g2, removed, rev) ← g.prepare_rank_assignment
  let g3 ← g2.undo_modify_edges removed rev
  some (edge_triples g, edge_triples g3)

/-- Claim C1: for every graph built through the public API, running
prepare_rank_assignment and then undo_modify_edges on its log restores
the node set and the multiset of (source, target, weight) edges.  This
fails on the C1 input: both boundary reversals are re-added at the last
edge index, so the log records index 1 twice; the undo reverses that one
slot twice (a net no-op) and the original edges 0 to 2 and 1 to 2 come
back as 2 to 1 and 2 to 0. -/
theorem undo_modify_edges_fails_to_restore :
    c1_run =
      some (↑[((0 : Nat), (2 : Nat), (1 : Rat)), (1, 2, 1)],
        ↑[((2 : Nat), (1 : Nat), (1 : Rat)), (2, 0, 1)]) ∧
    (↑[((0 : Nat), (2 : Nat), (1 : Rat)), (1, 2, 1)] :
        Multiset (Nat × Nat × Rat)) ≠
      ↑[((2 : Nat), (1 : Nat), (1 : Rat)), (2, 0, 1)] := by
  exact ⟨by decide, by decide⟩

/-- Graph built through the public API with no rank hints: two
three-cycles 0 1 2 and 3 4 5, each with an extra forward chord, the
closing back edge 5 to 3 inserted last. -/
def c2_input : Gansner Nat :=
  let g : Gansner Nat := Gansner.new
  let g := (g.add_node 0 (1, 1)).1
  let g := (g.add_node 1 (1, 1)).1
  let g := (g.add_node 2 (1, 1)).1
  let g := (g.add_node 3 (1, 1)).1
  let g := (g.add_node 4 (1, 1)).1
  let g := (g.add_node 5 (1, 1)).1
  let g := (g.add_edge 0 1).add_edge 1 2
  let g := (g.add_edge 2 0).add_edge 0 2
  let g := (g.add_edge 3 4).add_edge 4 5
  (g.add_edge 3 5).add_edge 5 3

/-- The graph produced by normalization of the C2 input. -/
def c2_run : Option (Gansner Nat) :=
  (c2_input.prepare_rank_assignment).map fun t => t.1

/-- The listed edge indices form a directed cycle: each edge target is
the next edge source, cyclically. -/
def is_edge_cycle (es : List GraphEdge) (ixs : List Nat) : Bool :=
  !ixs.isEmpty &&
  (List.zip ixs (ixs.rotate 1)).all fun p =>
    match es.get? p.1, es.get? p.2 with
    | some e1, some e2 => e1.target == e2.source
    | _, _ => false

/-- Claim C2: the graph produced by normalization is always acyclic.
This fails on the C2 input: the greedy feedback arc set flags edges 2
and 7 (the two back edges); reversing edge 2 swap-removes edge 7 into
slot 2 and re-adds the reversed edge at the last index 7, so the second
recorded index now denotes that re-added edge, which is flipped back.
Both back edges survive and the output still contains the directed
cycle 0 to 1 to 2 to 0 through edge slots 0, 1 and 7. -/
theorem prepare_rank_assignment_output_cyclic :
    (c2_run.map fun g => g.edges.map fun e => (e.source, e.target)) =
      some [(0, 1), (1, 2), (5, 3), (0, 2), (3, 4), (4, 5), (3, 5), (2, 0)] ∧
    (c2_run.map fun g => is_edge_cycle g.edges [0, 1, 7]) = some true := by
  exact ⟨by decide, by decide⟩

/-- Graph built through the public API: nodes 0, 1, 2, 3 with edges
0 to 1 and 2 to 3, node 1 hinted MIN and node 2 hinted MAX (the
boundary scenario of the specification). -/
def c3_input : Option (Gansner Nat) :=
  let g : Gansner Nat := Gansner.new
  let g := (g.add_node 0 (1, 1)).1
  let g := (g.add_node 1 (1, 1)).1
  let g := (g.add_node 2 (1, 1)).1
  let g := (g.add_node 3 (1, 1)).1
  let g := (g.add_edge 0 1).add_edge 2 3
  (g.set_rank_min 1).bind fun g => g.set_rank_max 2

/-- The graph immediately after normalization of the C3 input. -/
def c3_run : Option (Gansner Nat) :=
  (c3_input.bind fun g => g.prepare_rank_assignment).map fun t => t.1

/-- Some edge of the list ends at n. -/
def has_incoming (es : List GraphEdge) (n : Nat) : Bool :=
  es.any fun e => e.target == n

/-- Some edge of the list starts at n. -/
def has_outgoing (es : List GraphEdge) (n : Nat) : Bool :=
  es.any fun e => e.source == n

/-- Claim C3: immediately after normalization every MIN node has zero
incoming edges and every MAX node has zero outgoing edges.  This fails
on the C3 input: the boundary pass collects indices 0 and 1; reversing
edge 0 swap-removes edge 1 into slot 0 and re-adds reversed edge 0 at
index 1, so the second reversal flips reversed edge 0 back; both
original edges survive unreversed, the MIN node 1 keeps its incoming
edge and the MAX node 2 keeps its outgoing edge. -/
theorem prepare_rank_assignment_min_node_keeps_incoming :
    (c3_run.map fun g =>
        (g.rank_hints.rank_min, has_incoming g.edges 1,
          g.rank_hints.rank_max, has_outgoing g.edges 2)) =
      some ([1], true, [2], true) := by
  decide

/-- Claim C4: a second layout call with no mutation in between is a
complete no-op.  A successful call returns the state unchanged except
fresh is set, so the second call returns the same state (hence identical
node positions) and runs layout_impl zero further times; the run count
of the first call is at most one, so normalize and undo run at most once
in total. -/
theorem layout_idempotent_when_unmutated {α : Type} (g g1 : Gansner α)
    (n : Nat) (h : g.layout = some (g1, n)) :
    g1.layout = some (g1, 0) ∧ n ≤ 1 := by
  unfold Gansner.layout at h
  split at h
  case isTrue hf =>
    injection h with h'
    injection h' with e1 e2
    subst e1
    subst e2
    constructor
    · unfold Gansner.layout
      rw [if_pos hf]
    · omega
  case isFalse hf =>
    rw [Option.map_eq_some'] at h
    obtain ⟨gi, hgi, heq⟩ := h
    injection heq with e1 e2
    subst e1
    subst e2
    constructor
    · unfold Gansner.layout
      rw [if_pos rfl]
    · omega

/-- Witness for C4 at a concrete input: the empty instance, whose first
layout call succeeds with one normalize-undo run. -/
theorem layout_idempotent_when_unmutated_witness :
    ((⟨[], [], RankSets.new, true⟩ : Gansner Nat).layout =
      some ((⟨[], [], RankSets.new, true⟩ : Gansner Nat), 0)) ∧ (1 : Nat) ≤ 1 :=
  layout_idempotent_when_unmutated (Gansner.new : Gansner Nat)
    ⟨[], [], RankSets.new, true⟩ 1 (by decide)

/-- Claim C6: merging a MIN-group node with a MAX-group node panics; the
source panics before any write, which the none embedding records as the
registry being left untouched. -/
theorem set_rank_min_max_conflict_panics (s : RankSets) (a b : Nat)
    (ha : s.node_rank a = some MIN_RANK) (hb : s.node_rank b = some MAX_RANK) :
    s.set_rank a b = none := by
  unfold RankSets.set_rank
  rw [ha, hb]
  rfl

/-- Witness for C6: registry with node 0 assigned MIN and node 1
assigned MAX, as produced by set_rank_min then set_rank_max. -/
theorem set_rank_min_max_conflict_panics_witness :
    ((RankSets.new.set_rank_min 0).bind fun s => s.set_rank_max 1) =
      some (⟨[(0, MIN_RANK), (1, MAX_RANK)], 1⟩ : RankSets) ∧
    (⟨[(0, MIN_RANK), (1, MAX_RANK)], 1⟩ : RankSets).set_rank 0 1 = none :=
  ⟨by decide,
    set_rank_min_max_conflict_panics _ 0 1 (by decide) (by decide)⟩

/-- Claim C7: a direct set_rank_min or set_rank_max on a node that
already has any group panics. -/
theorem set_rank_direct_on_grouped_node_panics (s : RankSets) (n : Nat)
    (h : (s.node_rank n).isSome = true) :
    s.set_rank_min n = none ∧ s.set_rank_max n = none := by
  constructor
  · unfold RankSets.set_rank_min
    rw [h]
    rfl
  · unfold RankSets.set_rank_max
    rw [h]
    rfl

/-- Witness for C7: set_rank_min twice on the same node; the first call
succeeds, the second (and a direct set_rank_max) panics. -/
theorem set_rank_direct_on_grouped_node_panics_witness :
    RankSets.new.set_rank_min 0 = some (⟨[(0, MIN_RANK)], 1⟩ : RankSets) ∧
    (⟨[(0, MIN_RANK)], 1⟩ : RankSets).set_rank_min 0 = none ∧
    (⟨[(0, MIN_RANK)], 1⟩ : RankSets).set_rank_max 0 = none := by
  refine ⟨by decide, ?_, ?_⟩
  · exact (set_rank_direct_on_grouped_node_panics _ 0 (by decide)).1
  · exact (set_rank_direct_on_grouped_node_panics _ 0 (by decide)).2

/-- Claim C8: add_edge_with_options panics on every negative weight
before inserting anything, and for every weight at least 0 it inserts
one edge carrying exactly that weight and the given minimum rank
length. -/
theorem add_edge_with_options_weight_check {α : Type} (g : Gansner α)
    (a b : Nat) (m : RankIdx) (w : Rat) :
    (w < 0 → g.add_edge_with_options a b m w = none) ∧
    (0 ≤ w → g.add_edge_with_options a b m w =
      some { g with edges := g.edges ++ [⟨a, b, ⟨m, w⟩⟩], fresh := false }) := by
  unfold Gansner.add_edge_with_options Edge.with_weight Edge.set_weight
    Edge.with_min_rank_len Edge.new
  constructor
  · intro hw
    rw [if_neg (not_le.mpr hw)]
    rfl
  · intro hw
    rw [if_pos hw]
    rfl

/-- Witness for C8 at weight -1 (fails) and weight 2 (stored exactly). -/
theorem add_edge_with_options_weight_check_witness :
    ((Gansner.new : Gansner Nat).add_edge_with_options 0 1 1 (-1) = none) ∧
    ((Gansner.new : Gansner Nat).add_edge_with_options 0 1 1 2 =
      some { (Gansner.new : Gansner Nat) with
        edges := (Gansner.new : Gansner Nat).edges ++ [⟨0, 1, ⟨1, 2⟩⟩],
        fresh := false }) :=
  ⟨(add_edge_with_options_weight_check _ 0 1 1 (-1)).1 (by norm_num),
   (add_edge_with_options_weight_check _ 0 1 1 2).2 (by norm_num)⟩


/-- Lookup after insert: the inserted binding wins, other keys are
unchanged. -/
theorem lookupA_insertA (l : List (Nat × RankIdx)) (n m : Nat) (v : RankIdx) :
    lookupA (insertA l n v) m = if n = m then some v else lookupA l m := by
  induction l with
  | nil =>
    simp [insertA, lookupA]
  | cons p t ih =>
    obtain ⟨k, w⟩ := p
    by_cases hk : k = n
    · subst hk
      by_cases hm : k = m <;> simp [insertA, lookupA, hm]
    · by_cases hm : k = m
      · have hnm : ¬ n = m := fun e => hk (hm.trans e.symm)
        have hmn : ¬ m = n := fun e => hk (hm.trans e)
        simp [insertA, lookupA, hk, hm, hnm, hmn]
      · simp [insertA, lookupA, hk, hm, ih]

/-- The merge value map sends both of its arguments to the target. -/
theorem mergef_pair (x y v : RankIdx) (hv : v = x ∨ v = y) :
    (if v = x then y else v) = y := by
  rcases hv with rfl | rfl
  · rw [if_pos rfl]
  · split_ifs <;> rfl

/-- Lookup through a value map. -/
theorem lookupA_mapval (l : List (Nat × RankIdx)) (f : RankIdx → RankIdx)
    (n : Nat) :
    lookupA (l.map fun p => (p.1, f p.2)) n = (lookupA l n).map f := by
  induction l with
  | nil => rfl
  | cons p t ih =>
    obtain ⟨k, w⟩ := p
    by_cases hk : k = n <;> simp [lookupA, hk, ih]

/-- node_rank after merge_ranks rewrites the looked-up value. -/
theorem node_rank_merge (s : RankSets) (f t : RankIdx) (n : Nat) :
    (s.merge_ranks f t).node_rank n =
      (s.node_rank n).map fun v => if v = f then t else v := by
  unfold RankSets.merge_ranks RankSets.node_rank
  dsimp only
  exact lookupA_mapval s.ranks (fun v => if v = f then t else v) n

/-- node_rank after add_rank. -/
theorem node_rank_add (s : RankSets) (n m : Nat) (r : RankIdx) :
    (s.add_rank n r).node_rank m = if n = m then some r else s.node_rank m := by
  unfold RankSets.add_rank RankSets.node_rank
  dsimp only
  exact lookupA_insertA s.ranks n m r

/-- After a successful set_rank the two arguments share a rank. -/
theorem set_rank_join (s s1 : RankSets) (a b : Nat)
    (h : s.set_rank a b = some s1) :
    ∃ r, s1.node_rank a = some r ∧ s1.node_rank b = some r := by
  rcases ha : s.node_rank a with _ | ra <;>
    rcases hb : s.node_rank b with _ | rb <;>
      simp [RankSets.set_rank, ha, hb] at h
  · obtain ⟨r, s', hq, rfl⟩ := h
    refine ⟨r, ?_, ?_⟩ <;> by_cases hba : b = a <;>
      simp [node_rank_add, hba]
  · subst h
    refine ⟨rb, ?_, ?_⟩ <;> by_cases hab : a = b <;>
      simp [node_rank_add, hab, hb]
  · subst h
    refine ⟨ra, ?_, ?_⟩ <;> by_cases hba : b = a <;>
      simp [node_rank_add, hba, ha]
  · by_cases hab : ra > rb
    · simp only [gt_iff_lt] at hab
      simp only [hab, if_true] at h
      by_cases hmin : rb = MIN_RANK
      · simp only [hmin, if_true, Option.some.injEq] at h
        obtain ⟨-, h2⟩ := h
        subst h2
        exact ⟨MIN_RANK, by simp [node_rank_merge, ha, mergef_pair ra MIN_RANK ra (Or.inl rfl)],
          by simp [node_rank_merge, hb, hmin, mergef_pair ra MIN_RANK MIN_RANK (Or.inr rfl)]⟩
      · simp only [hmin, if_false, Option.some.injEq] at h
        obtain ⟨-, h2⟩ := h
        subst h2
        exact ⟨ra, by simp [node_rank_merge, ha, mergef_pair rb ra ra (Or.inr rfl)],
          by simp [node_rank_merge, hb, mergef_pair rb ra rb (Or.inl rfl)]⟩
    · simp only [gt_iff_lt] at hab
      simp only [hab, if_false] at h
      by_cases hmin : ra = MIN_RANK
      · simp only [hmin, if_true, Option.some.injEq] at h
        obtain ⟨-, h2⟩ := h
        subst h2
        exact ⟨MIN_RANK, by simp [node_rank_merge, ha, hmin, mergef_pair rb MIN_RANK MIN_RANK (Or.inr rfl)],
          by simp [node_rank_merge, hb, mergef_pair rb MIN_RANK rb (Or.inl rfl)]⟩
      · simp only [hmin, if_false, Option.some.injEq] at h
        obtain ⟨-, h2⟩ := h
        subst h2
        exact ⟨rb, by simp [node_rank_merge, ha, mergef_pair ra rb ra (Or.inl rfl)],
          by simp [node_rank_merge, hb, mergef_pair ra rb rb (Or.inr rfl)]⟩

/-- A successful set_rank preserves rank agreement: any node that
shared the first argument group still shares it afterwards. -/
theorem set_rank_preserves (s s2 : RankSets) (b c x : Nat) (r : RankIdx)
    (hb : s.node_rank b = some r) (hx : s.node_rank x = some r)
    (h : s.set_rank b c = some s2) :
    ∃ r2, s2.node_rank x = some r2 ∧ s2.node_rank b = some r2 := by
  rcases hc : s.node_rank c with _ | rc <;>
    simp [RankSets.set_rank, hb, hc] at h
  · subst h
    have hcx : ¬ c = x := fun e => by rw [e, hx] at hc; cases hc
    have hcb : ¬ c = b := fun e => by rw [e, hb] at hc; cases hc
    exact ⟨r, by simp [node_rank_add, hcx, hx], by simp [node_rank_add, hcb, hb]⟩
  · by_cases hrc : r > rc
    · simp only [gt_iff_lt] at hrc
      simp only [hrc, if_true] at h
      by_cases hmin : rc = MIN_RANK
      · simp only [hmin, if_true, Option.some.injEq] at h
        obtain ⟨-, h2⟩ := h
        subst h2
        exact ⟨MIN_RANK,
          by simp [node_rank_merge, hx, mergef_pair r MIN_RANK r (Or.inl rfl)],
          by simp [node_rank_merge, hb, mergef_pair r MIN_RANK r (Or.inl rfl)]⟩
      · simp only [hmin, if_false, Option.some.injEq] at h
        obtain ⟨-, h2⟩ := h
        subst h2
        exact ⟨r,
          by simp [node_rank_merge, hx, mergef_pair rc r r (Or.inr rfl)],
          by simp [node_rank_merge, hb, mergef_pair rc r r (Or.inr rfl)]⟩
    · simp only [gt_iff_lt] at hrc
      simp only [hrc, if_false] at h
      by_cases hmin : r = MIN_RANK
      · simp only [hmin, if_true, Option.some.injEq] at h
        obtain ⟨-, h2⟩ := h
        subst h2
        exact ⟨MIN_RANK,
          by simp [node_rank_merge, hx, hmin,
            mergef_pair rc MIN_RANK MIN_RANK (Or.inr rfl)],
          by simp [node_rank_merge, hb, hmin,
            mergef_pair rc MIN_RANK MIN_RANK (Or.inr rfl)]⟩
      · simp only [hmin, if_false, Option.some.injEq] at h
        obtain ⟨-, h2⟩ := h
        subst h2
        exact ⟨rc,
          by simp [node_rank_merge, hx, mergef_pair r rc r (Or.inl rfl)],
          by simp [node_rank_merge, hb, mergef_pair r rc r (Or.inl rfl)]⟩

/-- Claim C5: after set_rank_same(a, b) then set_rank_same(b, c), both
calls succeeding, node_rank of a and of c are defined and equal:
same-rank grouping is transitively closed by the merge logic. -/
theorem set_rank_transitive (s s1 s2 : RankSets) (a b c : Nat)
    (h1 : s.set_rank a b = some s1) (h2 : s1.set_rank b c = some s2) :
    ∃ r, s2.node_rank a = some r ∧ s2.node_rank c = some r := by
  obtain ⟨r, har, hbr⟩ := set_rank_join s s1 a b h1
  obtain ⟨r2, hx2, hb2⟩ := set_rank_preserves s1 s2 b c a r hbr har h2
  obtain ⟨r3, hb3, hc3⟩ := set_rank_join s1 s2 b c h2
  have e : r2 = r3 := by
    have e' := hb2.symm.trans hb3
    injection e'
  subst e
  exact ⟨r2, hx2, hc3⟩

/-- Witness for C5: fresh registry, set_rank_same(0, 1) then
set_rank_same(1, 2); nodes 0 and 2 end in group 1. -/
theorem set_rank_transitive_witness :
    ∃ r, (⟨[(0, 1), (1, 1), (2, 1)], 2⟩ : RankSets).node_rank 0 = some r ∧
      (⟨[(0, 1), (1, 1), (2, 1)], 2⟩ : RankSets).node_rank 2 = some r :=
  set_rank_transitive RankSets.new ⟨[(0, 1), (1, 1)], 2⟩
    ⟨[(0, 1), (1, 1), (2, 1)], 2⟩ 0 1 2 (by decide) (by decide)

/-- A successful layout leaves the instance fresh. -/
theorem layout_fresh {α : Type} (g g' : Gansner α) (n : Nat)
    (h : g.layout = some (g', n)) : g'.fresh = true := by
  unfold Gansner.layout at h
  split at h
  case isTrue hf =>
    injection h with h'
    injection h' with e1 e2
    subst e1
    exact hf
  case isFalse hf =>
    rw [Option.map_eq_some'] at h
    obtain ⟨gi, -, heq⟩ := h
    injection heq with e1 e2
    subst e1
    rfl

/-- reverse_edge never touches the node vector. -/
theorem reverse_edge_nodes {α : Type} (g g' : Gansner α) (i k : Nat)
    (h : g.reverse_edge i = some (g', k)) : g'.nodes = g.nodes := by
  unfold Gansner.reverse_edge at h
  split at h
  · exact Option.noConfusion h
  · injection h with h'
    injection h' with e1 e2
    subst e1
    rfl

/-- Folding reversals never touches the node vector. -/
theorem fold_reverse_nodes {α : Type} (ixs : List Nat) :
    ∀ (g g' : Gansner α) (l : List Nat),
      fold_reverse g ixs = some (g', l) → g'.nodes = g.nodes := by
  induction ixs with
  | nil =>
    intro g g' l h
    injection h with h'
    injection h' with e1 e2
    subst e1
    rfl
  | cons i rest ih =>
    intro g g' l h
    unfold fold_reverse at h
    rcases hm : g.reverse_edge i with _ | ⟨g1, k⟩ <;> rw [hm] at h
    · exact Option.noConfusion h
    · rw [Option.map_eq_some'] at h
      obtain ⟨⟨g2, l2⟩, h2, heq⟩ := h
      injection heq with e1 e2
      subst e1
      rw [ih _ _ _ h2]
      exact reverse_edge_nodes _ _ _ _ hm

/-- Folding removals never touches the node vector. -/
theorem fold_remove_nodes {α : Type} (ixs : List Nat) :
    ∀ (g g' : Gansner α) (l : List RemovedEdge),
      fold_remove g ixs = some (g', l) → g'.nodes = g.nodes := by
  induction ixs with
  | nil =>
    intro g g' l h
    injection h with h'
    injection h' with e1 e2
    subst e1
    rfl
  | cons i rest ih =>
    intro g g' l h
    unfold fold_remove at h
    rcases hm : swap_remove g.edges i with _ | ⟨e, es⟩ <;> rw [hm] at h
    · exact Option.noConfusion h
    · rw [Option.map_eq_some'] at h
      obtain ⟨⟨g2, l2⟩, h2, heq⟩ := h
      injection heq with e1 e2
      subst e1
      exact ih { g with edges := es } g2 l2 h2

/-- prepare_rank_assignment never touches the node vector. -/
theorem prepare_nodes {α : Type} (g g3 : Gansner α) (rm : List RemovedEdge)
    (rv : List Nat) (h : g.prepare_rank_assignment = some (g3, rm, rv)) :
    g3.nodes = g.nodes := by
  unfold Gansner.prepare_rank_assignment at h
  simp only [bind, Option.bind_eq_some] at h
  obtain ⟨⟨g1, rev1⟩, h1, h⟩ := h
  obtain ⟨⟨g2, rm2⟩, h2, h⟩ := h
  obtain ⟨⟨g3', rev2⟩, h3, h⟩ := h
  injection h with h'
  injection h' with e1 e2
  subst e1
  rw [fold_reverse_nodes _ _ _ _ h3, fold_remove_nodes _ _ _ _ h2,
    fold_reverse_nodes _ _ _ _ h1]

/-- Re-adding removed edges never touches the node vector. -/
theorem foldl_addback_nodes {α : Type} (rm : List RemovedEdge) :
    ∀ g : Gansner α,
      (rm.foldl (fun g r =>
        { g with edges := g.edges ++ [⟨r.from_, r.to_, r.weight⟩] }) g).nodes =
        g.nodes := by
  induction rm with
  | nil => intro g; rfl
  | cons r rest ih => intro g; rw [List.foldl_cons, ih]

/-- undo_modify_edges never touches the node vector. -/
theorem undo_nodes {α : Type} (g g' : Gansner α) (rm : List RemovedEdge)
    (rv : List Nat) (h : g.undo_modify_edges rm rv = some g') :
    g'.nodes = g.nodes := by
  unfold Gansner.undo_modify_edges at h
  simp only [bind, Option.bind_eq_some] at h
  obtain ⟨⟨g2, l⟩, h2, h⟩ := h
  injection h with h'
  subst h'
  rw [fold_reverse_nodes _ _ _ _ h2, foldl_addback_nodes]

/-- layout never touches the node vector. -/
theorem layout_nodes {α : Type} (g g' : Gansner α) (n : Nat)
    (h : g.layout = some (g', n)) : g'.nodes = g.nodes := by
  unfold Gansner.layout at h
  split at h
  case isTrue hf =>
    injection h with h'
    injection h' with e1 e2
    subst e1
    rfl
  case isFalse hf =>
    rw [Option.map_eq_some'] at h
    obtain ⟨gi, hgi, heq⟩ := h
    injection heq with e1 e2
    subst e1
    show gi.nodes = g.nodes
    unfold Gansner.layout_impl at hgi
    simp only [bind, Option.bind_eq_some] at hgi
    obtain ⟨⟨g1, rm, rv⟩, h1, h2⟩ := hgi
    rw [undo_nodes _ _ _ _ h2, prepare_nodes _ _ _ _ h1]

/-- States reachable through the public API of lib.rs. -/
inductive Reachable {α : Type} : Gansner α → Prop
  | new : Reachable Gansner.new
  | add_node (g : Gansner α) (x : α) (sz : Rat × Rat) :
      Reachable g → Reachable (g.add_node x sz).1
  | add_edge (g : Gansner α) (a b : Nat) :
      Reachable g → Reachable (g.add_edge a b)
  | add_edge_with_options (g g' : Gansner α) (a b : Nat) (m : RankIdx)
      (w : Rat) : Reachable g → g.add_edge_with_options a b m w = some g' →
      Reachable g'
  | set_rank_min (g g' : Gansner α) (n : Nat) :
      Reachable g → g.set_rank_min n = some g' → Reachable g'
  | set_rank_max (g g' : Gansner α) (n : Nat) :
      Reachable g → g.set_rank_max n = some g' → Reachable g'
  | set_rank_same (g g' : Gansner α) (a b : Nat) :
      Reachable g → g.set_rank_same a b = some g' → Reachable g'
  | layout (g g' : Gansner α) (n : Nat) :
      Reachable g → g.layout = some (g', n) → Reachable g'

/-- Every node of a reachable state still has the zero position written
by NodeWeight new: no code path assigns positions. -/
theorem reachable_positions_zero {α : Type} (g : Gansner α)
    (h : Reachable g) : ∀ nw ∈ g.nodes, nw.position = (0, 0) := by
  induction h with
  | new => intro nw hnw; cases hnw
  | add_node g x sz hg ih =>
    intro nw hnw
    rcases List.mem_append.mp hnw with h1 | h2
    · exact ih nw h1
    · rw [List.mem_singleton.mp h2]
      rfl
  | add_edge g a b hg ih => exact ih
  | add_edge_with_options g g' a b m w hg heq ih =>
    unfold Gansner.add_edge_with_options at heq
    rw [Option.map_eq_some'] at heq
    obtain ⟨e, -, heq⟩ := heq
    subst heq
    exact ih
  | set_rank_min g g' n hg heq ih =>
    unfold Gansner.set_rank_min at heq
    rw [Option.map_eq_some'] at heq
    obtain ⟨hh, -, heq⟩ := heq
    subst heq
    exact ih
  | set_rank_max g g' n hg heq ih =>
    unfold Gansner.set_rank_max at heq
    rw [Option.map_eq_some'] at heq
    obtain ⟨hh, -, heq⟩ := heq
    subst heq
    exact ih
  | set_rank_same g g' a b hg heq ih =>
    unfold Gansner.set_rank_same at heq
    rw [Option.map_eq_some'] at heq
    obtain ⟨hh, -, heq⟩ := heq
    subst heq
    exact ih
  | layout g g' n hg heq ih =>
    intro nw hnw
    rw [layout_nodes _ _ _ heq] at hnw
    exact ih nw hnw

/-- Claim C10: after any successful layout on a state built through the
public API, iter_nodes yields position (0, 0) for every node: positions
are initialized to zero by add_node and rank assignment is
unimplemented, so nothing ever writes them. -/
theorem positions_zero_after_layout {α : Type} (g g' : Gansner α) (n : Nat)
    (hr : Reachable g) (h : g.layout = some (g', n)) :
    g'.iter_nodes =
      some (g'.nodes.map fun nw => (nw.ix, ((0 : Rat), (0 : Rat)))) := by
  have hz := reachable_positions_zero g' (Reachable.layout g g' n hr h)
  unfold Gansner.iter_nodes
  rw [if_pos (layout_fresh g g' n h)]
  exact congrArg some (List.map_congr_left fun nw hnw => by rw [hz nw hnw])

/-- Witness for C10: one node with payload 5, layout, iter_nodes yields
position (0, 0). -/
theorem positions_zero_after_layout_witness :
    (⟨[⟨5, (2, 3), (0, 0)⟩], [], RankSets.new, true⟩ : Gansner Nat).iter_nodes =
      some ((⟨[⟨5, (2, 3), (0, 0)⟩], [], RankSets.new, true⟩ :
        Gansner Nat).nodes.map fun nw => (nw.ix, ((0 : Rat), (0 : Rat)))) :=
  positions_zero_after_layout ((Gansner.new : Gansner Nat).add_node 5 (2, 3)).1
    ⟨[⟨5, (2, 3), (0, 0)⟩], [], RankSets.new, true⟩ 1
    (Reachable.add_node Gansner.new 5 (2, 3) Reachable.new) (by decide)

/-- Claim C9: iter_nodes fails exactly when the instance is not fresh;
fresh is false at construction and after every mutating call, and true
after a successful layout; when fresh, iter_nodes yields the payload and
computed position of every node. -/
theorem iter_nodes_fresh_contract {α : Type} :
    (∀ g : Gansner α, g.iter_nodes = none ↔ g.fresh = false) ∧
    (∀ g : Gansner α, g.fresh = true →
      g.iter_nodes = some (g.nodes.map fun n => (n.ix, n.position))) ∧
    (Gansner.new : Gansner α).fresh = false ∧
    (∀ (g : Gansner α) (x : α) (sz : Rat × Rat),
      ((g.add_node x sz).1).fresh = false) ∧
    (∀ (g : Gansner α) (a b : Nat), (g.add_edge a b).fresh = false) ∧
    (∀ (g : Gansner α) (a b : Nat) (m : RankIdx) (w : Rat) (g' : Gansner α),
      g.add_edge_with_options a b m w = some g' → g'.fresh = false) ∧
    (∀ (g : Gansner α) (n : Nat) (g' : Gansner α),
      g.set_rank_min n = some g' → g'.fresh = false) ∧
    (∀ (g : Gansner α) (n : Nat) (g' : Gansner α),
      g.set_rank_max n = some g' → g'.fresh = false) ∧
    (∀ (g : Gansner α) (a b : Nat) (g' : Gansner α),
      g.set_rank_same a b = some g' → g'.fresh = false) ∧
    (∀ (g g' : Gansner α) (n : Nat), g.layout = some (g', n) →
      g'.fresh = true) := by
  refine ⟨?_, ?_, rfl, fun g x sz => rfl, fun g a b => rfl, ?_, ?_, ?_, ?_,
    fun g g' n h => layout_fresh g g' n h⟩
  · intro g
    unfold Gansner.iter_nodes
    cases hf : g.fresh <;> simp
  · intro g hf
    unfold Gansner.iter_nodes
    rw [if_pos hf]
  · intro g a b m w g' h
    unfold Gansner.add_edge_with_options at h
    rw [Option.map_eq_some'] at h
    obtain ⟨e, -, heq⟩ := h
    subst heq
    rfl
  · intro g n g' h
    unfold Gansner.set_rank_min at h
    rw [Option.map_eq_some'] at h
    obtain ⟨hh, -, heq⟩ := h
    subst heq
    rfl
  · intro g n g' h
    unfold Gansner.set_rank_max at h
    rw [Option.map_eq_some'] at h
    obtain ⟨hh, -, heq⟩ := h
    subst heq
    rfl
  · intro g a b g' h
    unfold Gansner.set_rank_same at h
    rw [Option.map_eq_some'] at h
    obtain ⟨hh, -, heq⟩ := h
    subst heq
    rfl

/-- Witness for C9: the fresh empty state yields the empty listing, the
initial state and a mutated state fail. -/
theorem iter_nodes_fresh_contract_witness :
    (Gansner.new : Gansner Nat).iter_nodes = none ∧
    ((Gansner.new : Gansner Nat).add_node 7 (1, 1)).1.iter_nodes = none ∧
    (⟨[⟨7, (1, 1), (0, 0)⟩], [], RankSets.new, true⟩ : Gansner Nat).iter_nodes =
      some [(7, ((0 : Rat), (0 : Rat)))] := by
  refine ⟨?_, ?_, ?_⟩
  · exact (iter_nodes_fresh_contract.1 Gansner.new).mpr rfl
  · exact (iter_nodes_fresh_contract.1 _).mpr
      (iter_nodes_fresh_contract.2.2.2.1 Gansner.new 7 (1, 1))
  · exact iter_nodes_fresh_contract.2.1 _ rfl
